import Mathlib

/-!
Shallow embedding of the device-resident resource cache and dispatch layer
declared in `src/gpu/src/device.h` (class `Device`).  The header declares the
data model: the ERI-cache parallel vectors (lines 136-149), the per-device
scratch state `my_device_data` with its packing-table vectors (lines 171-208),
the global flags `use_eri_cache` and `update_dfobj`, and the operations
`dd_fetch_eri`, `dd_fetch_pumap`, `disable_eri_cache_`, `set_update_dfobj_`,
`get_dfobj_status`, `init_get_jk`/`get_jk`/`pull_get_jk` and the AO2MO
transform drivers.  The defining translation unit is not part of the source
tree, so each operation body is modelled from the specification, as noted in
its doc comment.
-/

namespace Mrh

/-- One cached ERI block.  Mirrors one index of the parallel vectors
`eri_list`, `eri_count`, `eri_update`, `eri_size`, `eri_device`,
`d_eri_cache`, `d_eri_host` of `Device` (device.h lines 138-149), gathered
into a record: `key` is the (source identity, block index) pair behind
`eri_list`, `dPtr` the `d_eri_cache` device pointer (modelled as an
allocation id), `shadow` the `d_eri_host` host-side sample used for
staleness detection. -/
structure EriEntry where
  key    : Nat × Nat
  count  : Nat
  update : Nat
  size   : Nat
  device : Nat
  dPtr   : Nat
  shadow : List Int
  deriving DecidableEq, Repr

/-- The cache-related state of a `Device` object: the `use_eri_cache` flag
(device.h line 136), the `update_dfobj` flag (line 108), the ERI cache
entries, a device-memory model `devMem` mapping allocation ids to block
contents, and the next fresh allocation id. -/
structure DeviceState where
  useEriCache : Bool
  updateDfobj : Nat
  cache       : List EriEntry
  nextPtr     : Nat
  devMem      : Nat → List Int

/-- Initial state of a freshly constructed `Device`: caching enabled,
source-changed flag clear, empty cache. -/
def DeviceState.init : DeviceState :=
  { useEriCache := true, updateDfobj := 0, cache := [], nextPtr := 0,
    devMem := fun _ => [] }

/-- Look up the (first) cache entry with the given (source, block) key held
by the given device: the cache is independent per device. -/
def findEri (cache : List EriEntry) (k : Nat × Nat) (dev : Nat) :
    Option EriEntry :=
  cache.find? (fun e => decide (e.key = k ∧ e.device = dev))

/-- Update in place the (first) cache entry with the given key on the given
device. -/
def updEri (cache : List EriEntry) (k : Nat × Nat) (dev : Nat)
    (f : EriEntry → EriEntry) : List EriEntry :=
  match cache with
  | [] => []
  | e :: rest =>
    if e.key = k ∧ e.device = dev then f e :: rest
    else e :: updEri rest k dev f

/-- Increment of the usage counter `eri_count` on a cache reuse. -/
def bumpCount (e0 : EriEntry) : EriEntry :=
  { e0 with count := e0.count + 1 }

/-- Refresh of an entry on detected staleness: the update counter
`eri_update` is incremented and the `d_eri_host` shadow replaced by the
current host content. -/
def refreshEntry (host : List Int) (e0 : EriEntry) : EriEntry :=
  { e0 with update := e0.update + 1, shadow := host }

/-- Modelled from the spec: body of `dd_fetch_eri` (declared at device.h
line 213; its translation unit is absent from the tree).  Per spec section
4.2: on a first request for a (source, block) key, allocate device storage,
transfer the host data, record a shadow sample, set usage = update = 1.  On a
repeat request, if the source-changed flag `update_dfobj` is set or the
shadow sample disagrees with the current host data, re-transfer in place,
increment the update counter and refresh the shadow; otherwise return the
existing device pointer and increment the usage counter.  After
`disable_eri_cache_`, every fetch is a fresh transfer with no cache
interaction.  The shadow is taken to cover the whole block, the reading
under which the spec's staleness-detection property (section 8) holds. -/
def dd_fetch_eri (d : DeviceState) (k : Nat × Nat) (host : List Int)
    (devId : Nat) : Nat × DeviceState :=
  if d.useEriCache then
    match findEri d.cache k devId with
    | none =>
        (d.nextPtr,
         { d with
           cache := d.cache ++
             [{ key := k, count := 1, update := 1, size := host.length,
                device := devId, dPtr := d.nextPtr, shadow := host }],
           nextPtr := d.nextPtr + 1,
           devMem := fun p => if p = d.nextPtr then host else d.devMem p })
    | some e =>
        if d.updateDfobj ≠ 0 ∨ e.shadow ≠ host then
          (e.dPtr,
           { d with
             cache := updEri d.cache k devId (refreshEntry host),
             devMem := fun p => if p = e.dPtr then host else d.devMem p })
        else
          (e.dPtr, { d with cache := updEri d.cache k devId bumpCount })
  else
    (d.nextPtr,
     { d with
       nextPtr := d.nextPtr + 1,
       devMem := fun p => if p = d.nextPtr then host else d.devMem p })

/-- `set_update_dfobj_` (device.h line 76): records the caller's
source-changed flag. -/
def set_update_dfobj_ (d : DeviceState) (v : Nat) : DeviceState :=
  { d with updateDfobj := v }

/-- `disable_eri_cache_` (device.h line 67): clears `use_eri_cache` for the
remainder of the process; modelled from the spec ("global, irreversible for
the process"). -/
def disable_eri_cache_ (d : DeviceState) : DeviceState :=
  { d with useEriCache := false }

/-- Modelled from the spec: `get_dfobj_status` (device.h line 77) is a
read-only diagnostic returning, for a source identity, the number of cached
blocks and their total size; it does not mutate the cache. -/
def get_dfobj_status (d : DeviceState) (src : Nat) : Nat × Nat :=
  ((d.cache.filter (fun e => decide (e.key.1 = src))).length,
   ((d.cache.filter (fun e => decide (e.key.1 = src))).map
      (fun e => e.size)).sum)

/-- The operations of the `Device` interface that touch the ERI cache
state, used to quantify over arbitrary call sequences. -/
inductive DeviceOp where
  | fetchEri (k : Nat × Nat) (host : List Int) (devId : Nat)
  | setUpdateDfobj (v : Nat)
  | disableCache
  | dfobjStatus (src : Nat)
  deriving Repr

/-- One interface call applied to the device state. -/
def step (d : DeviceState) : DeviceOp → DeviceState
  | .fetchEri k host devId => (dd_fetch_eri d k host devId).2
  | .setUpdateDfobj v => set_update_dfobj_ d v
  | .disableCache => disable_eri_cache_ d
  | .dfobjStatus _ => d

/-- A sequence of interface calls applied to the device state. -/
def run (d : DeviceState) (ops : List DeviceOp) : DeviceState :=
  ops.foldl step d

/-- One named per-device scratch buffer of `my_device_data` (device.h lines
171-196): a size field (`size_buf`, `size_rho`, ...) paired with its device
allocation (`d_buf1`, `d_rho`, ...), the contents modelled as a function
from offsets to values. -/
structure ScratchBuffer where
  capacity : Nat
  data : Nat → Int

/-- Modelled from the spec: the buffer-sizing step of `init_get_jk`
(device.h line 69; translation unit absent).  Spec section 4.1:
`ensure_capacity` grows the named buffer to at least the requested size if
currently smaller — a reallocation drops the old contents — and never
shrinks it. -/
def ensure_capacity (b : ScratchBuffer) (n : Nat) : ScratchBuffer :=
  if b.capacity < n then { capacity := n, data := fun _ => 0 } else b

/-- A kernel writing one value into a scratch buffer. -/
def writeBuf (b : ScratchBuffer) (i : Nat) (v : Int) : ScratchBuffer :=
  { b with data := fun j => if j = i then v else b.data j }

/-- A sequence of writes into a scratch buffer. -/
def writeAll (b : ScratchBuffer) (ws : List (Nat × Int)) : ScratchBuffer :=
  ws.foldl (fun a w => writeBuf a w.1 w.2) b

/-- One entry of the packing/unmap-table cache: mirrors one index of the
parallel vectors `type_pumap`, `size_pumap`, `d_pumap` of `my_device_data`
(device.h lines 198-201). -/
structure PumapEntry where
  ptype : Nat
  psize : Nat
  dPtr  : Nat
  deriving DecidableEq, Repr

/-- The per-device packing/unmap-table cache with its device memory
(allocation id to table contents) and fresh-allocation counter. -/
structure PumapCache where
  entries : List PumapEntry
  mem     : Nat → List Nat
  nextPtr : Nat

/-- Modelled from the spec: the purely combinatorial table construction
used by `dd_fetch_pumap` (spec section 4.3: "a fixed, purely combinatorial
construction (no host data dependency)").  Kind 0 (`_PUMAP_2D_UNPACK`) maps
a dense (i, j) position to the triangular-packed index; kind 1
(`_PUMAP_H2EFF_UNPACK`) lists the packed indices row by row; kind 2
(`_PUMAP_H2EFF_PACK`) is the identity layout.  The claims depend only on
the construction being a function of (kind, size). -/
def build_pumap (ptype psize : Nat) : List Nat :=
  match ptype with
  | 0 => ((List.range psize).map (fun i =>
      (List.range psize).map (fun j =>
        if j ≤ i then i * (i + 1) / 2 + j else j * (j + 1) / 2 + i))).flatten
  | 1 => ((List.range psize).map (fun i =>
      (List.range (i + 1)).map (fun j => i * (i + 1) / 2 + j))).flatten
  | _ => (List.range psize).map (fun i => i)

/-- Look up the (first) packing-table entry with the given (kind, size). -/
def findPumap (entries : List PumapEntry) (pt ps : Nat) : Option PumapEntry :=
  entries.find? (fun e => decide (e.ptype = pt ∧ e.psize = ps))

/-- Modelled from the spec: body of `dd_fetch_pumap` (declared at device.h
line 212; translation unit absent).  Spec section 4.3: build the table on
first request for a (kind, size) pair, cache it by value equality of
(kind, size), return the cached pointer on subsequent requests; no
invalidation path exists. -/
def dd_fetch_pumap (c : PumapCache) (pt ps : Nat) : Nat × PumapCache :=
  match findPumap c.entries pt ps with
  | some e => (e.dPtr, c)
  | none =>
      (c.nextPtr,
       { entries := c.entries ++ [{ ptype := pt, psize := ps, dPtr := c.nextPtr }],
         mem := fun p => if p = c.nextPtr then build_pumap pt ps else c.mem p,
         nextPtr := c.nextPtr + 1 })

/-- Well-formedness of the packing-table cache: every cached pointer was
allocated below the fresh-allocation counter and no two entries share a
device pointer.  This holds for every cache reachable from the empty one. -/
def PumapWF (c : PumapCache) : Prop :=
  (∀ e ∈ c.entries, e.dPtr < c.nextPtr) ∧
  (c.entries.map (fun e => e.dPtr)).Nodup

/-- Pointwise sum of two device vectors. -/
def addVec (f g : Nat → ℚ) : Nat → ℚ := fun i => f i + g i

/-- A zeroed device accumulator, as initialized by `init_get_jk`. -/
def zeroVec : Nat → ℚ := fun _ => 0

/-- Finite dot product over the first `n` entries of two device vectors. -/
def dotR (n : Nat) (f g : Nat → ℚ) : ℚ := ∑ i ∈ Finset.range n, f i * g i

/-- Modelled from the spec: the Coulomb contribution of one auxiliary-basis
row of an ERI block to `vj` for one (triangular-packed) density matrix
`dm`: the density is contracted with the row (`rho`), and the row scaled by
`rho` is accumulated (spec section 4.4). -/
def jRow (npair : Nat) (dm row : Nat → ℚ) : Nat → ℚ :=
  fun pq => dotR npair dm row * row pq

/-- One `get_jk` call for one ERI block: fold the block's auxiliary rows
into the running `vj` accumulator. -/
def jAccumBlock (npair : Nat) (dm : Nat → ℚ) (acc : Nat → ℚ)
    (blk : List (Nat → ℚ)) : Nat → ℚ :=
  blk.foldl (fun a row => addVec a (jRow npair dm row)) acc

/-- The streaming Coulomb build: `init_get_jk` zeroes the accumulator, one
`get_jk` call per block folds it in, `pull_get_jk` returns the result. -/
def jStream (npair : Nat) (dm : Nat → ℚ) (blocks : List (List (Nat → ℚ))) :
    Nat → ℚ :=
  blocks.foldl (jAccumBlock npair dm) zeroVec

/-- Reference dense (non-blocked) Coulomb matrix over the whole row
sequence, written as a direct sum over auxiliary rows. -/
def jRefDense (npair : Nat) (dm : Nat → ℚ) (rows : List (Nat → ℚ)) :
    Nat → ℚ :=
  fun pq => (rows.map (fun row => dotR npair dm row * row pq)).sum

/-- Pointwise sum of two device matrices. -/
def addMat (f g : Nat → Nat → ℚ) : Nat → Nat → ℚ := fun i j => f i j + g i j

/-- A zeroed device matrix accumulator. -/
def zeroMat : Nat → Nat → ℚ := fun _ _ => 0

/-- Unpacking of a triangular-packed auxiliary row into a symmetric dense
matrix, as performed through the `_PUMAP_2D_UNPACK` table. -/
def unpackTril (row : Nat → ℚ) : Nat → Nat → ℚ :=
  fun i j => if j ≤ i then row (i * (i + 1) / 2 + j) else row (j * (j + 1) / 2 + i)

/-- Modelled from the spec: the exchange contribution of one
auxiliary-basis row to `vk` for one density matrix (spec section 4.4): the
unpacked row is contracted with the density from both sides. -/
def kRow (nao : Nat) (dm : Nat → Nat → ℚ) (row : Nat → ℚ) : Nat → Nat → ℚ :=
  fun i j => ∑ l ∈ Finset.range nao, ∑ s ∈ Finset.range nao,
    unpackTril row i l * dm l s * unpackTril row s j

/-- One `get_jk` call for one ERI block: fold the block's auxiliary rows
into the running `vk` accumulator. -/
def kAccumBlock (nao : Nat) (dm : Nat → Nat → ℚ) (acc : Nat → Nat → ℚ)
    (blk : List (Nat → ℚ)) : Nat → Nat → ℚ :=
  blk.foldl (fun a row => addMat a (kRow nao dm row)) acc

/-- The streaming exchange build over a block sequence. -/
def kStream (nao : Nat) (dm : Nat → Nat → ℚ) (blocks : List (List (Nat → ℚ))) :
    Nat → Nat → ℚ :=
  blocks.foldl (kAccumBlock nao dm) zeroMat

/-- Reference dense (non-blocked) exchange matrix over the whole row
sequence. -/
def kRefDense (nao : Nat) (dm : Nat → Nat → ℚ) (rows : List (Nat → ℚ)) :
    Nat → Nat → ℚ :=
  fun i j => (rows.map (fun row => kRow nao dm row i j)).sum

/-- Modelled from the spec: the validation and compute skeleton of the
AO2MO / h2eff transform drivers `df_ao2mo_pass1_fdrv` (device.h lines
79-81) and `get_h2eff_df` (lines 90-92), whose translation unit is absent.
Spec section 7(d): inconsistent shell-range bounds are validated before any
kernel dispatch and rejected with a descriptive failure; section 4.5: empty
shell ranges contribute zero and must not fault.  The transformed block
restricted to the bra/ket windows is returned on success. -/
def transform_driver (nao braStart braCount ketStart ketCount : Nat)
    (eri mo : Nat → Nat → ℚ) : Except String (List (List ℚ)) :=
  if nao < braStart + braCount then
    Except.error "transform driver: bra shell range exceeds the orbital bound"
  else if nao < ketStart + ketCount then
    Except.error "transform driver: ket shell range exceeds the orbital bound"
  else
    Except.ok ((List.range braCount).map (fun i =>
      (List.range ketCount).map (fun j =>
        ∑ m ∈ Finset.range nao, ∑ n ∈ Finset.range nao,
          mo m (braStart + i) * eri m n * mo n (ketStart + j))))

/-- The (key, device) identity of a cache entry. -/
def entryKey (e : EriEntry) : (Nat × Nat) × Nat := (e.key, e.device)

/-- A sample cache entry used to instantiate the cache theorems. -/
def sampleEntry : EriEntry :=
  { key := (7, 0), count := 3, update := 1, size := 2, device := 0,
    dPtr := 5, shadow := [1, 2] }

/-- A sample device state holding `sampleEntry`. -/
def sampleDevice : DeviceState :=
  { useEriCache := true, updateDfobj := 0, cache := [sampleEntry],
    nextPtr := 6, devMem := fun _ => [] }

/-! ### Helper lemmas about the ERI cache -/

theorem findEri_updEri (c : List EriEntry) (k : Nat × Nat) (dev : Nat)
    (f : EriEntry → EriEntry)
    (hf : ∀ e, (f e).key = e.key ∧ (f e).device = e.device) :
    findEri (updEri c k dev f) k dev = (findEri c k dev).map f := by
  induction c with
  | nil => simp [findEri, updEri]
  | cons e rest ih =>
    by_cases h : e.key = k ∧ e.device = dev
    · simp [findEri, updEri, h, List.find?_cons_of_pos, (hf e).1, (hf e).2,
        h.1, h.2]
    · simp only [updEri, if_neg h, findEri] at *
      rw [List.find?_cons_of_neg, List.find?_cons_of_neg, ih]
      · simp [h]
      · simp [h]

theorem keys_updEri (c : List EriEntry) (k : Nat × Nat) (dev : Nat)
    (f : EriEntry → EriEntry)
    (hf : ∀ e, (f e).key = e.key ∧ (f e).device = e.device) :
    (updEri c k dev f).map entryKey = c.map entryKey := by
  induction c with
  | nil => rfl
  | cons e rest ih =>
    by_cases h : e.key = k ∧ e.device = dev <;>
      simp [updEri, h, ih, entryKey, (hf e).1, (hf e).2]

theorem mem_updEri_of_mem (c : List EriEntry) (k : Nat × Nat) (dev : Nat)
    (f : EriEntry → EriEntry) (e : EriEntry) (he : e ∈ c) :
    e ∈ updEri c k dev f ∨ f e ∈ updEri c k dev f := by
  induction c with
  | nil => cases he
  | cons x rest ih =>
    by_cases h : x.key = k ∧ x.device = dev
    · simp only [updEri, if_pos h]
      rcases List.mem_cons.mp he with rfl | hr
      · exact Or.inr (List.mem_cons_self _ _)
      · exact Or.inl (List.mem_cons_of_mem _ hr)
    · simp only [updEri, if_neg h]
      rcases List.mem_cons.mp he with rfl | hr
      · exact Or.inl (List.mem_cons_self _ _)
      · rcases ih hr with h1 | h1
        · exact Or.inl (List.mem_cons_of_mem _ h1)
        · exact Or.inr (List.mem_cons_of_mem _ h1)

/-- Reduction of `dd_fetch_eri` on the reuse path: cache enabled,
source-changed flag clear, entry present, host data equal to the shadow. -/
theorem dd_fetch_eri_reuse (d : DeviceState) (k : Nat × Nat)
    (host : List Int) (devId : Nat) (e : EriEntry)
    (hc : d.useEriCache = true) (hu : d.updateDfobj = 0)
    (hf : findEri d.cache k devId = some e) (hs : host = e.shadow) :
    dd_fetch_eri d k host devId
      = (e.dPtr, { d with cache := updEri d.cache k devId bumpCount }) := by
  subst hs
  have hcond : ¬ (d.updateDfobj ≠ 0 ∨ e.shadow ≠ e.shadow) := by simp [hu]
  simp only [dd_fetch_eri, hc, if_true, hf, if_neg hcond]

/-- Reduction of `dd_fetch_eri` on the refresh path: cache enabled, entry
present, and either the source-changed flag set or the shadow stale. -/
theorem dd_fetch_eri_refresh (d : DeviceState) (k : Nat × Nat)
    (host : List Int) (devId : Nat) (e : EriEntry)
    (hc : d.useEriCache = true)
    (hstale : d.updateDfobj ≠ 0 ∨ e.shadow ≠ host)
    (hf : findEri d.cache k devId = some e) :
    dd_fetch_eri d k host devId
      = (e.dPtr,
         { d with
           cache := updEri d.cache k devId (refreshEntry host),
           devMem := fun p => if p = e.dPtr then host else d.devMem p }) := by
  simp only [dd_fetch_eri, hc, if_true, hf, if_pos hstale]

/-! ### Claims about `dd_fetch_eri` -/

/-- Claim C1: for a cached ERI block, mutating the host-side content and
re-invoking `dd_fetch_eri` with the source-changed flag clear is still
detected, via the shadow comparison: the block is re-transferred to the
same device pointer, the entry's update counter is incremented and the
shadow is refreshed to the new content. -/
theorem dd_fetch_eri_staleness_detection (d : DeviceState) (k : Nat × Nat)
    (host : List Int) (devId : Nat) (e : EriEntry)
    (hc : d.useEriCache = true) (hu : d.updateDfobj = 0)
    (hf : findEri d.cache k devId = some e) (hm : host ≠ e.shadow) :
    (dd_fetch_eri d k host devId).1 = e.dPtr ∧
    findEri (dd_fetch_eri d k host devId).2.cache k devId
      = some { e with update := e.update + 1, shadow := host } ∧
    (dd_fetch_eri d k host devId).2.devMem e.dPtr = host := by
  rw [dd_fetch_eri_refresh d k host devId e hc (Or.inr (Ne.symm hm)) hf]
  refine ⟨rfl, ?_, by simp⟩
  dsimp only
  rw [findEri_updEri d.cache k devId (refreshEntry host)
    (fun e0 => ⟨rfl, rfl⟩), hf]
  rfl

/-- Concrete instance of the staleness-detection theorem. -/
theorem dd_fetch_eri_staleness_detection_witness :
    ([1, 3] : List Int) ≠ sampleEntry.shadow ∧
    (dd_fetch_eri sampleDevice (7, 0) [1, 3] 0).1 = sampleEntry.dPtr :=
  ⟨by decide,
   (dd_fetch_eri_staleness_detection sampleDevice (7, 0) [1, 3] 0 sampleEntry
      rfl rfl (by decide) (by decide)).1⟩

/-- Claim C2: fetching a cached ERI block twice in a row with the
source-changed flag clear and the host data unchanged returns the same
device pointer both times, increments the usage counter on each call, and
leaves the update counter unchanged. -/
theorem dd_fetch_eri_idempotent (d : DeviceState) (k : Nat × Nat)
    (devId : Nat) (e : EriEntry)
    (hc : d.useEriCache = true) (hu : d.updateDfobj = 0)
    (hf : findEri d.cache k devId = some e) :
    (dd_fetch_eri d k e.shadow devId).1 = e.dPtr ∧
    (dd_fetch_eri (dd_fetch_eri d k e.shadow devId).2 k e.shadow devId).1
      = e.dPtr ∧
    findEri (dd_fetch_eri d k e.shadow devId).2.cache k devId
      = some { e with count := e.count + 1 } ∧
    findEri (dd_fetch_eri (dd_fetch_eri d k e.shadow devId).2 k e.shadow
        devId).2.cache k devId
      = some { e with count := e.count + 2 } := by
  have h1 : findEri (updEri d.cache k devId bumpCount) k devId
      = some { e with count := e.count + 1 } := by
    rw [findEri_updEri d.cache k devId bumpCount (fun e0 => ⟨rfl, rfl⟩), hf]
    rfl
  have hr1 := dd_fetch_eri_reuse d k e.shadow devId e hc hu hf rfl
  have hr2 := dd_fetch_eri_reuse
    { d with cache := updEri d.cache k devId bumpCount }
    k e.shadow devId { e with count := e.count + 1 } hc hu h1 rfl
  refine ⟨by rw [hr1], ?_, ?_, ?_⟩
  · rw [hr1]
    exact congrArg Prod.fst hr2
  · rw [hr1]
    exact h1
  · rw [hr1]
    rw [congrArg (fun x => x.2.cache) hr2]
    rw [findEri_updEri (updEri d.cache k devId bumpCount) k devId bumpCount
      (fun e0 => ⟨rfl, rfl⟩), h1]
    simp [bumpCount, Nat.add_assoc]

/-- Concrete instance of the idempotence theorem. -/
theorem dd_fetch_eri_idempotent_witness :
    findEri
      (dd_fetch_eri
        (dd_fetch_eri sampleDevice (7, 0) [1, 2] 0).2 (7, 0) [1, 2] 0).2.cache
      (7, 0) 0
      = some { sampleEntry with count := sampleEntry.count + 2 } :=
  (dd_fetch_eri_idempotent sampleDevice (7, 0) 0 sampleEntry rfl rfl
    (by decide)).2.2.2

/-- Claim C3: setting the source-changed flag through `set_update_dfobj_`
forces the next fetch of a cached block to refresh it — re-transfer and
update-counter increment — even when the host content equals the shadow
sample. -/
theorem dd_fetch_eri_flag_precedence (d : DeviceState) (k : Nat × Nat)
    (devId : Nat) (e : EriEntry) (v : Nat)
    (hc : d.useEriCache = true) (hv : v ≠ 0)
    (hf : findEri d.cache k devId = some e) :
    (dd_fetch_eri (set_update_dfobj_ d v) k e.shadow devId).1 = e.dPtr ∧
    findEri (dd_fetch_eri (set_update_dfobj_ d v) k e.shadow devId).2.cache k
        devId
      = some { e with update := e.update + 1 } ∧
    (dd_fetch_eri (set_update_dfobj_ d v) k e.shadow devId).2.devMem e.dPtr
      = e.shadow := by
  have hf' : findEri (set_update_dfobj_ d v).cache k devId = some e := hf
  rw [dd_fetch_eri_refresh (set_update_dfobj_ d v) k e.shadow devId e hc
    (Or.inl hv) hf']
  refine ⟨rfl, ?_, by simp⟩
  dsimp only
  rw [findEri_updEri (set_update_dfobj_ d v).cache k devId
    (refreshEntry e.shadow) (fun e0 => ⟨rfl, rfl⟩), hf']
  rfl

/-- Concrete instance of the explicit-flag-precedence theorem. -/
theorem dd_fetch_eri_flag_precedence_witness :
    (1 : Nat) ≠ 0 ∧
    findEri
      (dd_fetch_eri (set_update_dfobj_ sampleDevice 1) (7, 0) [1, 2]
        0).2.cache (7, 0) 0
      = some { sampleEntry with update := sampleEntry.update + 1 } :=
  ⟨by decide,
   (dd_fetch_eri_flag_precedence sampleDevice (7, 0) 0 sampleEntry 1 rfl
      (by decide) (by decide)).2.1⟩

/-! ### Claims about the cache life cycle -/

theorem step_disabled (d : DeviceState) (op : DeviceOp)
    (h : d.useEriCache = false) :
    (step d op).useEriCache = false ∧ (step d op).cache = d.cache := by
  cases op with
  | fetchEri k host devId => simp [step, dd_fetch_eri, h]
  | setUpdateDfobj v => exact ⟨h, rfl⟩
  | disableCache => exact ⟨rfl, rfl⟩
  | dfobjStatus src => exact ⟨h, rfl⟩

theorem run_disabled (d : DeviceState) (ops : List DeviceOp)
    (h : d.useEriCache = false) :
    (run d ops).useEriCache = false ∧ (run d ops).cache = d.cache := by
  induction ops generalizing d with
  | nil => exact ⟨h, rfl⟩
  | cons op rest ih =>
    have hs := step_disabled d op h
    have hr := ih (step d op) hs.1
    exact ⟨hr.1, hr.2.trans hs.2⟩

/-- Claim C6: after `disable_eri_cache_`, the disabled state survives every
later operation, the cached entries — and so their usage and update
counters — never change again, and every subsequent fetch performs a fresh
transfer: it returns the fresh allocation id, deposits the host data there,
and leaves the cache untouched. -/
theorem disable_eri_cache_permanent (d : DeviceState) (ops : List DeviceOp)
    (k : Nat × Nat) (host : List Int) (devId : Nat) :
    (run (disable_eri_cache_ d) ops).useEriCache = false ∧
    (run (disable_eri_cache_ d) ops).cache = d.cache ∧
    (dd_fetch_eri (run (disable_eri_cache_ d) ops) k host devId).1
      = (run (disable_eri_cache_ d) ops).nextPtr ∧
    (dd_fetch_eri (run (disable_eri_cache_ d) ops) k host devId).2.devMem
        ((run (disable_eri_cache_ d) ops).nextPtr) = host ∧
    (dd_fetch_eri (run (disable_eri_cache_ d) ops) k host devId).2.cache
      = d.cache := by
  have h0 : (disable_eri_cache_ d).useEriCache = false := rfl
  have hr := run_disabled (disable_eri_cache_ d) ops h0
  refine ⟨hr.1, hr.2, ?_, ?_, ?_⟩
  · simp [dd_fetch_eri, hr.1]
  · simp [dd_fetch_eri, hr.1]
  · simp only [dd_fetch_eri, hr.1, Bool.false_eq_true, if_false]
    exact hr.2

theorem findEri_eq_none_iff (c : List EriEntry) (k : Nat × Nat) (dev : Nat)
    (h : findEri c k dev = none) :
    ∀ e ∈ c, ¬ (e.key = k ∧ e.device = dev) := by
  intro e he
  have hx := List.find?_eq_none.mp h e he
  simpa using hx

theorem step_keys_nodup (d : DeviceState) (op : DeviceOp)
    (h : (d.cache.map entryKey).Nodup) :
    ((step d op).cache.map entryKey).Nodup := by
  cases op with
  | fetchEri k host devId =>
    by_cases hc : d.useEriCache = true
    · cases hfind : findEri d.cache k devId with
      | none =>
        have hk := findEri_eq_none_iff d.cache k devId hfind
        simp only [step, dd_fetch_eri, hc, if_true, hfind]
        rw [List.map_append]
        refine List.Nodup.append h (List.nodup_singleton _) ?_
        intro a ha hb
        rcases List.mem_map.mp ha with ⟨e, he, rfl⟩
        rcases List.mem_singleton.mp hb with hb'
        exact hk e he ⟨congrArg Prod.fst hb', congrArg Prod.snd hb'⟩
      | some e =>
        by_cases hupd : d.updateDfobj ≠ 0 ∨ e.shadow ≠ host
        · simp only [step, dd_fetch_eri, hc, if_true, hfind, if_pos hupd]
          rw [keys_updEri d.cache k devId (refreshEntry host)
            (fun e0 => ⟨rfl, rfl⟩)]
          exact h
        · simp only [step, dd_fetch_eri, hc, if_true, hfind, if_neg hupd]
          rw [keys_updEri d.cache k devId bumpCount (fun e0 => ⟨rfl, rfl⟩)]
          exact h
    · simp only [step, dd_fetch_eri, if_neg hc]
      exact h
  | setUpdateDfobj v => exact h
  | disableCache => exact h
  | dfobjStatus src => exact h

theorem run_keys_nodup (d : DeviceState) (ops : List DeviceOp)
    (h : (d.cache.map entryKey).Nodup) :
    ((run d ops).cache.map entryKey).Nodup := by
  induction ops generalizing d with
  | nil => exact h
  | cons op rest ih => exact ih (step d op) (step_keys_nodup d op h)

theorem step_cache_mono (d : DeviceState) (op : DeviceOp) (e : EriEntry)
    (he : e ∈ d.cache) :
    ∃ e', e' ∈ (step d op).cache ∧ e'.key = e.key ∧ e'.device = e.device ∧
      e.count ≤ e'.count ∧ e.update ≤ e'.update := by
  cases op with
  | fetchEri k host devId =>
    by_cases hc : d.useEriCache = true
    · cases hfind : findEri d.cache k devId with
      | none =>
        refine ⟨e, ?_, rfl, rfl, le_refl _, le_refl _⟩
        simp only [step, dd_fetch_eri, hc, if_true, hfind]
        exact List.mem_append_left _ he
      | some e1 =>
        by_cases hupd : d.updateDfobj ≠ 0 ∨ e1.shadow ≠ host
        · simp only [step, dd_fetch_eri, hc, if_true, hfind, if_pos hupd]
          rcases mem_updEri_of_mem d.cache k devId (refreshEntry host) e he
            with h1 | h1
          · exact ⟨e, h1, rfl, rfl, le_refl _, le_refl _⟩
          · exact ⟨refreshEntry host e, h1, rfl, rfl, le_refl _,
              Nat.le_succ _⟩
        · simp only [step, dd_fetch_eri, hc, if_true, hfind, if_neg hupd]
          rcases mem_updEri_of_mem d.cache k devId bumpCount e he
            with h1 | h1
          · exact ⟨e, h1, rfl, rfl, le_refl _, le_refl _⟩
          · exact ⟨bumpCount e, h1, rfl, rfl, Nat.le_succ _, le_refl _⟩
    · refine ⟨e, ?_, rfl, rfl, le_refl _, le_refl _⟩
      simp only [step, dd_fetch_eri, if_neg hc]
      exact he
  | setUpdateDfobj v => exact ⟨e, he, rfl, rfl, le_refl _, le_refl _⟩
  | disableCache => exact ⟨e, he, rfl, rfl, le_refl _, le_refl _⟩
  | dfobjStatus src => exact ⟨e, he, rfl, rfl, le_refl _, le_refl _⟩

/-- Claim C7: in every device state reachable from the initial one, there
is exactly one cache entry per (source identity, block index, device)
identity — the identity list is duplicate-free, a stale entry being
refreshed in place rather than duplicated — and no operation ever removes
an entry: every cached identity survives every further operation. -/
theorem eri_cache_one_entry_per_key (ops : List DeviceOp) (op : DeviceOp)
    (e : EriEntry) (he : e ∈ (run DeviceState.init ops).cache) :
    (((run DeviceState.init ops).cache.map entryKey).Nodup) ∧
    ∃ e', e' ∈ (step (run DeviceState.init ops) op).cache ∧
      e'.key = e.key ∧ e'.device = e.device := by
  refine ⟨run_keys_nodup DeviceState.init ops (by simp [DeviceState.init]),
    ?_⟩
  obtain ⟨e', h1, h2, h3, _, _⟩ := step_cache_mono _ op e he
  exact ⟨e', h1, h2, h3⟩

/-- Concrete instance of the one-entry-per-key theorem. -/
theorem eri_cache_one_entry_per_key_witness :
    { key := (7, 0), count := 1, update := 1, size := 1, device := 0,
      dPtr := 0, shadow := [4] : EriEntry }
      ∈ (run DeviceState.init [DeviceOp.fetchEri (7, 0) [4] 0]).cache ∧
    ((run DeviceState.init
        [DeviceOp.fetchEri (7, 0) [4] 0]).cache.map entryKey).Nodup :=
  ⟨by decide,
   (eri_cache_one_entry_per_key [DeviceOp.fetchEri (7, 0) [4] 0]
      DeviceOp.disableCache
      { key := (7, 0), count := 1, update := 1, size := 1, device := 0,
        dPtr := 0, shadow := [4] } (by decide)).1⟩

/-- Claim C10: the usage counter `eri_count` and update counter
`eri_update` of a cache entry are monotonically non-decreasing: after any
sequence of operations — fetches, flag toggles, cache disabling,
diagnostic status queries — the entry with the same identity has counters
at least as large. -/
theorem eri_counters_monotone (d : DeviceState) (ops : List DeviceOp)
    (e : EriEntry) (he : e ∈ d.cache) :
    ∃ e', e' ∈ (run d ops).cache ∧ e'.key = e.key ∧ e'.device = e.device ∧
      e.count ≤ e'.count ∧ e.update ≤ e'.update := by
  induction ops generalizing d e with
  | nil => exact ⟨e, he, rfl, rfl, le_refl _, le_refl _⟩
  | cons op rest ih =>
    obtain ⟨e1, h1, hk1, hd1, hc1, hu1⟩ := step_cache_mono d op e he
    obtain ⟨e2, h2, hk2, hd2, hc2, hu2⟩ := ih (step d op) e1 h1
    exact ⟨e2, h2, hk2.trans hk1, hd2.trans hd1, hc1.trans hc2,
      hu1.trans hu2⟩

/-- Concrete instance of the counter-monotonicity theorem. -/
theorem eri_counters_monotone_witness :
    sampleEntry ∈ sampleDevice.cache ∧
    ∃ e', e' ∈ (run sampleDevice
        [DeviceOp.dfobjStatus 7, DeviceOp.disableCache]).cache ∧
      e'.key = sampleEntry.key ∧ e'.device = sampleEntry.device ∧
      sampleEntry.count ≤ e'.count ∧ sampleEntry.update ≤ e'.update :=
  ⟨by decide,
   eri_counters_monotone sampleDevice
     [DeviceOp.dfobjStatus 7, DeviceOp.disableCache] sampleEntry
     (by decide)⟩

/-! ### Claim about the scratch buffers -/

theorem writeAll_capacity (b : ScratchBuffer) (ws : List (Nat × Int)) :
    (writeAll b ws).capacity = b.capacity := by
  induction ws generalizing b with
  | nil => rfl
  | cons w rest ih => exact ih (writeBuf b w.1 w.2)

theorem ensure_capacity_id (b : ScratchBuffer) (n : Nat)
    (h : n ≤ b.capacity) : ensure_capacity b n = b := by
  unfold ensure_capacity
  rw [if_neg (Nat.not_lt.mpr h)]

/-- Claim C5: scratch buffers are grow-only.  `ensure_capacity` reallocates
only when the requested size exceeds the current allocation (a request not
exceeding it is the identity), and after growing to `L` and writing
arbitrary data, a request for a smaller size `S` leaves the buffer —
capacity and previously written contents — untouched. -/
theorem ensure_capacity_grow_only (b : ScratchBuffer) (L S : Nat)
    (ws : List (Nat × Int)) (hS : S ≤ L) :
    (ensure_capacity b L).capacity = max b.capacity L ∧
    ensure_capacity (writeAll (ensure_capacity b L) ws) S
      = writeAll (ensure_capacity b L) ws ∧
    (∀ n, n ≤ b.capacity → ensure_capacity b n = b) := by
  have hcap : (ensure_capacity b L).capacity = max b.capacity L := by
    by_cases h : b.capacity < L
    · simp [ensure_capacity, h, Nat.max_eq_right (Nat.le_of_lt h)]
    · simp [ensure_capacity, h, Nat.max_eq_left (Nat.le_of_not_lt h)]
  have hge : S ≤ (writeAll (ensure_capacity b L) ws).capacity := by
    rw [writeAll_capacity, hcap]
    exact le_trans hS (Nat.le_max_right _ _)
  exact ⟨hcap, ensure_capacity_id _ S hge, fun n hn => ensure_capacity_id b n hn⟩

/-- Concrete instance of the grow-only theorem. -/
theorem ensure_capacity_grow_only_witness :
    2 ≤ 4 ∧
    (ensure_capacity { capacity := 0, data := fun _ => 0 } 4).capacity
      = max 0 4 :=
  ⟨by decide,
   (ensure_capacity_grow_only { capacity := 0, data := fun _ => 0 } 4 2
      [(3, 5)] (by decide)).1⟩

/-! ### Claim about the packing/unmap-table cache -/

theorem dd_fetch_pumap_hit (c : PumapCache) (pt ps : Nat) (e : PumapEntry)
    (h : findPumap c.entries pt ps = some e) :
    dd_fetch_pumap c pt ps = (e.dPtr, c) := by
  simp only [dd_fetch_pumap, h]

theorem dd_fetch_pumap_miss (c : PumapCache) (pt ps : Nat)
    (h : findPumap c.entries pt ps = none) :
    dd_fetch_pumap c pt ps
      = (c.nextPtr,
         { entries := c.entries ++ [⟨pt, ps, c.nextPtr⟩],
           mem := fun p =>
             if p = c.nextPtr then build_pumap pt ps else c.mem p,
           nextPtr := c.nextPtr + 1 }) := by
  simp only [dd_fetch_pumap, h]

theorem findPumap_fetch_self (c : PumapCache) (pt ps : Nat) :
    findPumap (dd_fetch_pumap c pt ps).2.entries pt ps
      = some { ptype := pt, psize := ps,
               dPtr := (dd_fetch_pumap c pt ps).1 } := by
  cases hfind : findPumap c.entries pt ps with
  | some e =>
    have hp : e.ptype = pt ∧ e.psize = ps := by
      simpa using List.find?_some hfind
    simp only [dd_fetch_pumap, hfind]
    cases e
    simp_all
  | none =>
    simp only [dd_fetch_pumap, hfind]
    unfold findPumap at hfind ⊢
    rw [List.find?_append, hfind]
    simp

theorem pumapWF_fetch (c : PumapCache) (pt ps : Nat) (h : PumapWF c) :
    PumapWF (dd_fetch_pumap c pt ps).2 := by
  cases hfind : findPumap c.entries pt ps with
  | some e => simpa [dd_fetch_pumap, hfind] using h
  | none =>
    simp only [dd_fetch_pumap, hfind]
    refine ⟨?_, ?_⟩
    · intro e he
      rcases List.mem_append.mp he with h1 | h1
      · exact Nat.lt_trans (h.1 e h1) (Nat.lt_succ_self _)
      · rw [List.mem_singleton.mp h1]
        exact Nat.lt_succ_self _
    · rw [List.map_append]
      refine List.Nodup.append h.2 (List.nodup_singleton _) ?_
      intro a ha hb
      rcases List.mem_map.mp ha with ⟨e, he, rfl⟩
      exact absurd (List.mem_singleton.mp hb) (Nat.ne_of_lt (h.1 e he))

/-- Claim C8: the packing/unmap-table cache is memoized by (kind, size):
fetching the same pair twice returns the same device pointer and leaves
the cache unchanged; fetching a different size for the same kind yields a
distinct pointer; and a table, once built, is never rebuilt or invalidated
— a later fetch of a different size preserves both the original pointer
and the device memory holding the original table. -/
theorem dd_fetch_pumap_memoized (c : PumapCache) (pt s1 s2 : Nat)
    (hwf : PumapWF c) (hne : s1 ≠ s2) :
    (dd_fetch_pumap (dd_fetch_pumap c pt s1).2 pt s1).1
      = (dd_fetch_pumap c pt s1).1 ∧
    (dd_fetch_pumap (dd_fetch_pumap c pt s1).2 pt s1).2
      = (dd_fetch_pumap c pt s1).2 ∧
    (dd_fetch_pumap (dd_fetch_pumap c pt s1).2 pt s2).1
      ≠ (dd_fetch_pumap c pt s1).1 ∧
    (dd_fetch_pumap (dd_fetch_pumap (dd_fetch_pumap c pt s1).2 pt s2).2
        pt s1).1 = (dd_fetch_pumap c pt s1).1 ∧
    (dd_fetch_pumap (dd_fetch_pumap c pt s1).2 pt s2).2.mem
        ((dd_fetch_pumap c pt s1).1)
      = (dd_fetch_pumap c pt s1).2.mem ((dd_fetch_pumap c pt s1).1) := by
  have hself := findPumap_fetch_self c pt s1
  have hwf1 := pumapWF_fetch c pt s1 hwf
  have hmem1 : (⟨pt, s1, (dd_fetch_pumap c pt s1).1⟩ : PumapEntry)
      ∈ (dd_fetch_pumap c pt s1).2.entries :=
    List.mem_of_find?_eq_some hself
  have hlt1 : (dd_fetch_pumap c pt s1).1
      < (dd_fetch_pumap c pt s1).2.nextPtr := hwf1.1 _ hmem1
  refine ⟨by rw [dd_fetch_pumap_hit _ pt s1 _ hself],
    by rw [dd_fetch_pumap_hit _ pt s1 _ hself], ?_, ?_, ?_⟩
  · cases hfind2 : findPumap (dd_fetch_pumap c pt s1).2.entries pt s2 with
    | none =>
      rw [dd_fetch_pumap_miss _ pt s2 hfind2]
      exact (Nat.ne_of_lt hlt1).symm
    | some e2 =>
      have hp2 : e2.ptype = pt ∧ e2.psize = s2 := by
        simpa using List.find?_some hfind2
      have hmem2 : e2 ∈ (dd_fetch_pumap c pt s1).2.entries :=
        List.mem_of_find?_eq_some hfind2
      rw [dd_fetch_pumap_hit _ pt s2 _ hfind2]
      intro heq
      have hsame := List.inj_on_of_nodup_map hwf1.2 hmem2 hmem1 heq
      rw [hsame] at hp2
      exact hne hp2.2
  · cases hfind2 : findPumap (dd_fetch_pumap c pt s1).2.entries pt s2 with
    | none =>
      have hpres : findPumap
          (dd_fetch_pumap (dd_fetch_pumap c pt s1).2 pt s2).2.entries pt s1
          = some (⟨pt, s1, (dd_fetch_pumap c pt s1).1⟩ : PumapEntry) := by
        rw [dd_fetch_pumap_miss _ pt s2 hfind2]
        dsimp only
        unfold findPumap at hself ⊢
        rw [List.find?_append, hself]
        rfl
      rw [dd_fetch_pumap_hit _ pt s1 _ hpres]
    | some e2 =>
      have hpres : findPumap
          (dd_fetch_pumap (dd_fetch_pumap c pt s1).2 pt s2).2.entries pt s1
          = some (⟨pt, s1, (dd_fetch_pumap c pt s1).1⟩ : PumapEntry) := by
        rw [dd_fetch_pumap_hit _ pt s2 _ hfind2]
        exact hself
      rw [dd_fetch_pumap_hit _ pt s1 _ hpres]
  · cases hfind2 : findPumap (dd_fetch_pumap c pt s1).2.entries pt s2 with
    | none =>
      rw [dd_fetch_pumap_miss _ pt s2 hfind2]
      dsimp only
      rw [if_neg (Nat.ne_of_lt hlt1)]
    | some e2 =>
      rw [dd_fetch_pumap_hit _ pt s2 _ hfind2]

/-- Concrete instance of the packing-table memoization theorem. -/
theorem dd_fetch_pumap_memoized_witness :
    (2 : Nat) ≠ 3 ∧
    (dd_fetch_pumap
        (dd_fetch_pumap { entries := [], mem := fun _ => [], nextPtr := 0 }
          0 2).2 0 2).1
      = (dd_fetch_pumap { entries := [], mem := fun _ => [], nextPtr := 0 }
          0 2).1 :=
  ⟨by decide,
   (dd_fetch_pumap_memoized { entries := [], mem := fun _ => [], nextPtr := 0 }
      0 2 3 ⟨fun e he => absurd he (List.not_mem_nil e), List.nodup_nil⟩
      (by decide)).1⟩

/-! ### Claim about the streaming JK builder -/

theorem foldl_addVec_apply (c : (Nat → ℚ) → Nat → ℚ) (rows : List (Nat → ℚ))
    (acc : Nat → ℚ) (i : Nat) :
    (rows.foldl (fun a r => addVec a (c r)) acc) i
      = acc i + (rows.map (fun r => c r i)).sum := by
  induction rows generalizing acc with
  | nil => simp
  | cons r rest ih =>
    simp only [List.foldl_cons, List.map_cons, List.sum_cons]
    rw [ih]
    simp only [addVec]
    ring

theorem foldl_addMat_apply (c : (Nat → ℚ) → Nat → Nat → ℚ)
    (rows : List (Nat → ℚ)) (acc : Nat → Nat → ℚ) (i j : Nat) :
    (rows.foldl (fun a r => addMat a (c r)) acc) i j
      = acc i j + (rows.map (fun r => c r i j)).sum := by
  induction rows generalizing acc with
  | nil => simp
  | cons r rest ih =>
    simp only [List.foldl_cons, List.map_cons, List.sum_cons]
    rw [ih]
    simp only [addMat]
    ring

theorem jStream_eq_flatten (npair : Nat) (dm : Nat → ℚ)
    (blocks : List (List (Nat → ℚ))) :
    jStream npair dm blocks = jStream npair dm [blocks.flatten] := by
  unfold jStream jAccumBlock
  simp only [List.foldl_cons, List.foldl_nil]
  exact (List.foldl_flatten _ zeroVec blocks).symm

theorem kStream_eq_flatten (nao : Nat) (dmM : Nat → Nat → ℚ)
    (blocks : List (List (Nat → ℚ))) :
    kStream nao dmM blocks = kStream nao dmM [blocks.flatten] := by
  unfold kStream kAccumBlock
  simp only [List.foldl_cons, List.foldl_nil]
  exact (List.foldl_flatten _ zeroMat blocks).symm

/-- Claim C4: the streaming JK builder is block-split invariant: for any
density data, accumulating over a sequence of blocks gives exactly the
same J and K accumulators as processing the same rows as one single
block, and both agree entrywise with the reference dense (non-blocked)
computation.  The device real arithmetic is modelled exactly over ℚ, so
the results are equal outright — in particular within any tolerance. -/
theorem get_jk_blocked_eq_dense (npair nao : Nat) (dm : Nat → ℚ)
    (dmM : Nat → Nat → ℚ) (blocks : List (List (Nat → ℚ))) :
    jStream npair dm blocks = jStream npair dm [blocks.flatten] ∧
    (∀ pq, jStream npair dm blocks pq
      = jRefDense npair dm blocks.flatten pq) ∧
    kStream nao dmM blocks = kStream nao dmM [blocks.flatten] ∧
    (∀ i j, kStream nao dmM blocks i j
      = kRefDense nao dmM blocks.flatten i j) := by
  refine ⟨jStream_eq_flatten npair dm blocks, ?_,
    kStream_eq_flatten nao dmM blocks, ?_⟩
  · intro pq
    rw [jStream_eq_flatten npair dm blocks]
    unfold jStream jAccumBlock
    simp only [List.foldl_cons, List.foldl_nil]
    rw [foldl_addVec_apply (jRow npair dm) blocks.flatten zeroVec pq]
    simp [zeroVec, jRow, jRefDense]
  · intro i j
    rw [kStream_eq_flatten nao dmM blocks]
    unfold kStream kAccumBlock
    simp only [List.foldl_cons, List.foldl_nil]
    rw [foldl_addMat_apply (kRow nao dmM) blocks.flatten zeroMat i j]
    simp [zeroMat, kRefDense]

/-! ### Claim about the transform driver -/

/-- Claim C9: the transform driver validates shell ranges before any
kernel dispatch: an empty bra or ket range with in-bounds indices
completes successfully and contributes zero output, while inconsistent
shell-range bounds are rejected with a descriptive failure instead of
numeric output. -/
theorem transform_driver_edge_cases (nao bs bc ks kc : Nat)
    (eri mo : Nat → Nat → ℚ) :
    (bs + bc ≤ nao → ks + kc ≤ nao → bc = 0 ∨ kc = 0 →
      ∃ r, transform_driver nao bs bc ks kc eri mo = Except.ok r ∧
        r.flatten = []) ∧
    (nao < bs + bc →
      transform_driver nao bs bc ks kc eri mo
        = Except.error
            "transform driver: bra shell range exceeds the orbital bound") ∧
    (bs + bc ≤ nao → nao < ks + kc →
      transform_driver nao bs bc ks kc eri mo
        = Except.error
            "transform driver: ket shell range exceeds the orbital bound")
    := by
  refine ⟨?_, ?_, ?_⟩
  · intro h1 h2 h3
    refine ⟨(List.range bc).map (fun i => (List.range kc).map (fun j =>
      ∑ m ∈ Finset.range nao, ∑ n ∈ Finset.range nao,
        mo m (bs + i) * eri m n * mo n (ks + j))), ?_, ?_⟩
    · unfold transform_driver
      rw [if_neg (Nat.not_lt.mpr h1), if_neg (Nat.not_lt.mpr h2)]
    · rcases h3 with rfl | rfl
      · simp
      · simp
  · intro h
    unfold transform_driver
    rw [if_pos h]
  · intro h1 h2
    unfold transform_driver
    rw [if_neg (Nat.not_lt.mpr h1), if_pos h2]

/-- Concrete instance of the transform-driver edge-case theorem. -/
theorem transform_driver_edge_cases_witness :
    0 + 0 ≤ 2 ∧
    ∃ r, transform_driver 2 0 0 0 1 (fun _ _ => 0) (fun _ _ => 0)
        = Except.ok r ∧ r.flatten = [] :=
  ⟨by decide,
   (transform_driver_edge_cases 2 0 0 0 1 (fun _ _ => 0) (fun _ _ => 0)).1
     (by decide) (by decide) (Or.inl rfl)⟩

end Mrh
